import Mathlib

/-!
Verification of the inventory-monitoring / order-extraction repository.

The definitions below are a shallow embedding of the Python sources:
`inventory_monitor.py` (class `InventoryMonitor`), `inventory_monitor_main.py`
(`check_inventory_once`) and `data_extractor.py` (class `OrderDataExtractor`).
Python dicts keyed by product name are modelled as association lists with
Python's insertion-order / last-write-wins semantics; `datetime.now()` is
modelled by explicit `now` parameters (an ISO string for timestamps that are
only stored, a day count plus seconds-of-day for date arithmetic).
-/

/-- One inventory row as produced by the scraper and consumed by
`InventoryMonitor`: keys `product`, `quantity`, `expiry_date`, `scraped_at`. -/
structure InventoryItem where
  product : String
  quantity : Int
  expiry_date : String
  scraped_at : String
deriving DecidableEq, Repr

/-- Inserting one item into a Python dict keyed by `product`:
an existing key keeps its position and gets the new value,
a new key is appended at the end (insertion order). -/
def insertItem (d : List InventoryItem) (it : InventoryItem) : List InventoryItem :=
  if d.any (fun x => x.product == it.product) then
    d.map (fun x => if x.product == it.product then it else x)
  else
    d ++ [it]

/-- `{item['product']: item for item in l}` — the dict build in
`compare_inventory` (lines 109-110): last occurrence of a product wins,
keys keep first-occurrence order. -/
def toDict (l : List InventoryItem) : List InventoryItem :=
  l.foldl insertItem []

/-- Dict lookup by product name. -/
def dictGet (d : List InventoryItem) (p : String) : Option InventoryItem :=
  d.find? (fun it => it.product == p)

/-- The `type` tag put on a change record: `'shipment'` or `'increase'`. -/
inductive ChangeType where
  | shipment
  | increase
deriving DecidableEq, Repr

/-- The `change_info` dict built in `compare_inventory` lines 128-144.
`shipped_quantity` is present only on shipment records, hence an `Option`. -/
structure ChangeInfo where
  product : String
  previous_quantity : Int
  current_quantity : Int
  quantity_diff : Int
  previous_expiry : String
  current_expiry : String
  expiry_changed : Bool
  timestamp : String
  type : ChangeType
  shipped_quantity : Option Int
deriving DecidableEq, Repr

/-- A `new_products` entry (lines 149-154). -/
structure NewProduct where
  product : String
  quantity : Int
  expiry_date : String
  timestamp : String
deriving DecidableEq, Repr

/-- A `removed_products` entry (lines 159-163). -/
structure RemovedProduct where
  product : String
  previous_quantity : Int
  timestamp : String
deriving DecidableEq, Repr

/-- The dict returned by `compare_inventory` (lines 165-170). -/
structure ChangeSet where
  changes : List ChangeInfo
  new_products : List NewProduct
  removed_products : List RemovedProduct
  timestamp : String
deriving DecidableEq, Repr

/-- The change record built for a product present in both listings
(`compare_inventory` lines 122-144): quantity diff, expiry comparison
against `prev_item.get('expiry_date', '')`, and the shipment/increase tag. -/
def mkChangeInfo (ci pi : InventoryItem) (now : String) : ChangeInfo :=
  let quantity_diff := ci.quantity - pi.quantity
  { product := ci.product
    previous_quantity := pi.quantity
    current_quantity := ci.quantity
    quantity_diff := quantity_diff
    previous_expiry := pi.expiry_date
    current_expiry := ci.expiry_date
    expiry_changed := ci.expiry_date != pi.expiry_date
    timestamp := now
    type := if quantity_diff < 0 then ChangeType.shipment else ChangeType.increase
    shipped_quantity := if quantity_diff < 0 then some |quantity_diff| else none }

/-- Body of the first loop of `compare_inventory` for one current item:
emit a change record iff the product is also in `previous_dict` and the
quantity changed or the expiry string changed (lines 117-146). -/
def changeOf (previous_dict : List InventoryItem) (now : String)
    (ci : InventoryItem) : Option ChangeInfo :=
  match dictGet previous_dict ci.product with
  | some pi =>
    if ci.quantity - pi.quantity ≠ 0 ∨ ci.expiry_date ≠ pi.expiry_date then
      some (mkChangeInfo ci pi now)
    else
      none
  | none => none

/-- Body of the first loop of `compare_inventory` for one current item:
emit a `new_products` record iff the product is absent from `previous_dict`
(lines 147-154). -/
def newOf (previous_dict : List InventoryItem) (now : String)
    (ci : InventoryItem) : Option NewProduct :=
  match dictGet previous_dict ci.product with
  | some _ => none
  | none => some ⟨ci.product, ci.quantity, ci.expiry_date, now⟩

/-- Body of the second loop of `compare_inventory`: emit a `removed_products`
record iff the previous product is absent from `current_dict` (lines 156-163). -/
def removedOf (current_dict : List InventoryItem) (now : String)
    (pi : InventoryItem) : Option RemovedProduct :=
  match dictGet current_dict pi.product with
  | some _ => none
  | none => some ⟨pi.product, pi.quantity, now⟩

/-- `InventoryMonitor.compare_inventory(current, previous_key)` with
`previous = self.history.get(previous_key, [])` already resolved to a listing;
`now` stands for the `datetime.now().isoformat()` readings. -/
def compare_inventory (current previous : List InventoryItem) (now : String) :
    ChangeSet :=
  let current_dict := toDict current
  let previous_dict := toDict previous
  { changes := current_dict.filterMap (changeOf previous_dict now)
    new_products := current_dict.filterMap (newOf previous_dict now)
    removed_products := previous_dict.filterMap (removedOf current_dict now)
    timestamp := now }

/-- `mkNewProduct ci now` is the `new_products` record for current item `ci`. -/
def mkNewProduct (ci : InventoryItem) (now : String) : NewProduct :=
  ⟨ci.product, ci.quantity, ci.expiry_date, now⟩

/-- `mkRemovedProduct pi now` is the `removed_products` record for `pi`. -/
def mkRemovedProduct (pi : InventoryItem) (now : String) : RemovedProduct :=
  ⟨pi.product, pi.quantity, now⟩

/-- Erase every timestamp field of a change set (they come from the clock,
not from the listings). -/
def stripTimestamps (cs : ChangeSet) : ChangeSet :=
  { changes := cs.changes.map (fun c => { c with timestamp := "" })
    new_products := cs.new_products.map (fun n => { n with timestamp := "" })
    removed_products := cs.removed_products.map (fun r => { r with timestamp := "" })
    timestamp := "" }

/-- Distinctness of the product keys of an association list. -/
def distinctProducts (l : List InventoryItem) : Prop :=
  l.Pairwise (fun a b => a.product ≠ b.product)

theorem product_insertItem_replace (it : InventoryItem) (x : InventoryItem) :
    (if x.product == it.product then it else x).product = x.product := by
  by_cases h : x.product == it.product
  · simp only [h, if_true]
    exact (beq_iff_eq.mp h).symm
  · simp [h]

theorem distinctProducts_insertItem (d : List InventoryItem) (it : InventoryItem)
    (hd : distinctProducts d) : distinctProducts (insertItem d it) := by
  unfold insertItem
  by_cases hany : d.any (fun x => x.product == it.product)
  · simp only [hany, if_true]
    unfold distinctProducts
    rw [List.pairwise_map]
    refine hd.imp ?_
    intro a b hab
    rw [product_insertItem_replace, product_insertItem_replace]
    exact hab
  · rw [if_neg hany]
    unfold distinctProducts
    rw [List.pairwise_append]
    refine ⟨hd, List.pairwise_singleton _ _, ?_⟩
    intro a ha b hb
    rw [List.mem_singleton] at hb
    subst hb
    intro hab
    exact hany (List.any_eq_true.mpr ⟨a, ha, beq_iff_eq.mpr hab⟩)

theorem distinctProducts_foldl_insertItem (l : List InventoryItem) :
    ∀ acc : List InventoryItem, distinctProducts acc →
      distinctProducts (l.foldl insertItem acc) := by
  induction l with
  | nil => intro acc h; exact h
  | cons a t ih =>
    intro acc h
    exact ih _ (distinctProducts_insertItem acc a h)

/-- The dict built by `compare_inventory` has pairwise-distinct keys. -/
theorem distinctProducts_toDict (l : List InventoryItem) :
    distinctProducts (toDict l) :=
  distinctProducts_foldl_insertItem l [] List.Pairwise.nil

theorem dictGet_product {d : List InventoryItem} {p : String} {it : InventoryItem}
    (h : dictGet d p = some it) : it.product = p := by
  have := List.find?_some h
  exact beq_iff_eq.mp this

/-- On a list with distinct keys, an element is found by its own key. -/
theorem find?_of_mem_distinct :
    ∀ (l : List InventoryItem), distinctProducts l →
      ∀ a ∈ l, l.find? (fun it => it.product == a.product) = some a := by
  intro l
  induction l with
  | nil => intro _ a ha; exact absurd ha (List.not_mem_nil a)
  | cons h t ih =>
    intro hl a ha
    rw [distinctProducts, List.pairwise_cons] at hl
    obtain ⟨hhead, htail⟩ := hl
    rcases List.mem_cons.mp ha with rfl | hat
    · simp
    · have hne : h.product ≠ a.product := hhead a hat
      have : (h.product == a.product) = false := by
        simpa using hne
      simp only [List.find?, this]
      exact ih htail a hat

/-- Filtering a `filterMap` image by a key: on a distinct-key list the result
is exactly the image of the found element. -/
theorem filterMap_filter_key {β : Type} (key : β → String)
    (f : InventoryItem → Option β)
    (hf : ∀ it x, f it = some x → key x = it.product) :
    ∀ (l : List InventoryItem), distinctProducts l → ∀ (p : String),
      (l.filterMap f).filter (fun x => key x == p)
        = ((l.find? fun it => it.product == p).bind f).toList := by
  intro l
  induction l with
  | nil => intro _ p; simp
  | cons a t ih =>
    intro hl p
    rw [distinctProducts, List.pairwise_cons] at hl
    obtain ⟨ha, ht⟩ := hl
    by_cases hap : a.product = p
    · have hfind : ((a :: t).find? fun it => it.product == p) = some a := by
        simp [List.find?, hap]
      rw [hfind]
      have htail : (t.filterMap f).filter (fun x => key x == p) = [] := by
        rw [List.filter_eq_nil_iff]
        intro x hx
        obtain ⟨it, hit, hfx⟩ := List.mem_filterMap.mp hx
        have hkey := hf it x hfx
        have hne := ha it hit
        simp only [beq_iff_eq, hkey]
        intro hcontra
        exact hne (hap.trans hcontra.symm)
      cases hfa : f a with
      | none => simp [List.filterMap_cons, hfa, htail]
      | some x =>
        have hx : key x = p := (hf a x hfa).trans hap
        simp [List.filterMap_cons, hfa, htail, List.filter_cons, hx]
    · have hfind : ((a :: t).find? fun it => it.product == p)
          = t.find? fun it => it.product == p := by
        have : (a.product == p) = false := by simpa using hap
        simp [List.find?, this]
      rw [hfind, ← ih ht p]
      cases hfa : f a with
      | none => simp [List.filterMap_cons, hfa]
      | some x =>
        have hx : key x ≠ p := by rw [hf a x hfa]; exact hap
        simp [List.filterMap_cons, hfa, List.filter_cons, hx]

theorem changeOf_product {pd : List InventoryItem} {now : String}
    {it : InventoryItem} {x : ChangeInfo} (h : changeOf pd now it = some x) :
    x.product = it.product := by
  unfold changeOf at h
  split at h
  · split at h
    · cases h; rfl
    · exact absurd h (by simp)
  · exact absurd h (by simp)

theorem newOf_product {pd : List InventoryItem} {now : String}
    {it : InventoryItem} {x : NewProduct} (h : newOf pd now it = some x) :
    x.product = it.product := by
  unfold newOf at h
  split at h
  · exact absurd h (by simp)
  · cases h; rfl

theorem removedOf_product {cd : List InventoryItem} {now : String}
    {it : InventoryItem} {x : RemovedProduct} (h : removedOf cd now it = some x) :
    x.product = it.product := by
  unfold removedOf at h
  split at h
  · exact absurd h (by simp)
  · cases h; rfl

theorem filterMap_some_eq_map {α β : Type} (f : α → β) (l : List α) :
    l.filterMap (fun a => some (f a)) = l.map f := by
  induction l with
  | nil => rfl
  | cons a t ih => simp [List.filterMap_cons, ih]

/-- C1: for every pair of listings and every product present in both
(matched by product-name key), `compare_inventory` emits a change event iff
the quantity diff is nonzero or the expiry strings differ; the event is
tagged shipment with `shipped_quantity = |quantity_diff|` when the diff is
negative, and tagged increase otherwise — including a zero diff with only
the expiry changed; and every emitted change event arises this way. -/
theorem compare_inventory_change_classification
    (current previous : List InventoryItem) (now p : String)
    (ci pi : InventoryItem)
    (hc : dictGet (toDict current) p = some ci)
    (hp : dictGet (toDict previous) p = some pi) :
    ((compare_inventory current previous now).changes.filter
        (fun c => c.product == p)
      = if ci.quantity - pi.quantity ≠ 0 ∨ ci.expiry_date ≠ pi.expiry_date
        then [mkChangeInfo ci pi now] else [])
    ∧ (ci.quantity - pi.quantity < 0 →
        (mkChangeInfo ci pi now).type = ChangeType.shipment ∧
        (mkChangeInfo ci pi now).shipped_quantity
          = some |ci.quantity - pi.quantity|)
    ∧ (0 ≤ ci.quantity - pi.quantity →
        (mkChangeInfo ci pi now).type = ChangeType.increase ∧
        (mkChangeInfo ci pi now).shipped_quantity = none)
    ∧ (∀ c ∈ (compare_inventory current previous now).changes,
        ∃ ci' pi', dictGet (toDict current) c.product = some ci'
          ∧ dictGet (toDict previous) c.product = some pi'
          ∧ (ci'.quantity - pi'.quantity ≠ 0
              ∨ ci'.expiry_date ≠ pi'.expiry_date)
          ∧ c = mkChangeInfo ci' pi' now) := by
  refine ⟨?_, ?_, ?_, ?_⟩
  · show ((toDict current).filterMap (changeOf (toDict previous) now)).filter
      (fun c => c.product == p) = _
    rw [filterMap_filter_key ChangeInfo.product _
      (fun it x hx => changeOf_product hx) _ (distinctProducts_toDict current) p]
    have hfind : (toDict current).find? (fun it => it.product == p) = some ci := hc
    rw [hfind]
    show (changeOf (toDict previous) now ci).toList = _
    unfold changeOf
    rw [dictGet_product hc, hp]
    by_cases hcond : ci.quantity - pi.quantity ≠ 0 ∨ ci.expiry_date ≠ pi.expiry_date
    · simp [hcond]
    · simp [hcond]
  · intro hneg
    constructor
    · simp [mkChangeInfo, hneg]
    · simp [mkChangeInfo, hneg]
  · intro hpos
    have hnl : ¬ (ci.quantity - pi.quantity < 0) := not_lt.mpr hpos
    constructor
    · simp [mkChangeInfo, hnl]
    · simp [mkChangeInfo, hnl]
  · intro c hcmem
    have hcmem' : c ∈ (toDict current).filterMap (changeOf (toDict previous) now) :=
      hcmem
    obtain ⟨it, hit, hfit⟩ := List.mem_filterMap.mp hcmem'
    unfold changeOf at hfit
    split at hfit
    · split at hfit
      · cases hfit
        rename_i pi' hpd hcond
        refine ⟨it, pi', ?_, ?_, hcond, rfl⟩
        · exact find?_of_mem_distinct _ (distinctProducts_toDict current) it hit
        · exact hpd
      · exact absurd hfit (by simp)
    · exact absurd hfit (by simp)

/-- C1 witness: a concrete product present in both listings (quantity
100 → 60, expiry changed) for which the change-event characterization of
`compare_inventory_change_classification` is instantiated. -/
theorem compare_inventory_change_classification_witness :
    (dictGet (toDict [(⟨"A", 60, "2024-06-01", "s1"⟩ : InventoryItem)]) "A"
        = some ⟨"A", 60, "2024-06-01", "s1"⟩)
    ∧ (dictGet (toDict [(⟨"A", 100, "2024-01-01", "s0"⟩ : InventoryItem)]) "A"
        = some ⟨"A", 100, "2024-01-01", "s0"⟩)
    ∧ ((compare_inventory [⟨"A", 60, "2024-06-01", "s1"⟩]
          [⟨"A", 100, "2024-01-01", "s0"⟩] "t").changes.filter
            (fun c => c.product == "A")
        = if (⟨"A", 60, "2024-06-01", "s1"⟩ : InventoryItem).quantity
              - (⟨"A", 100, "2024-01-01", "s0"⟩ : InventoryItem).quantity ≠ 0
            ∨ (⟨"A", 60, "2024-06-01", "s1"⟩ : InventoryItem).expiry_date
              ≠ (⟨"A", 100, "2024-01-01", "s0"⟩ : InventoryItem).expiry_date
          then [mkChangeInfo ⟨"A", 60, "2024-06-01", "s1"⟩
                  ⟨"A", 100, "2024-01-01", "s0"⟩ "t"]
          else []) :=
  ⟨by decide, by decide,
    (compare_inventory_change_classification
      [⟨"A", 60, "2024-06-01", "s1"⟩] [⟨"A", 100, "2024-01-01", "s0"⟩]
      "t" "A" ⟨"A", 60, "2024-06-01", "s1"⟩ ⟨"A", 100, "2024-01-01", "s0"⟩
      (by decide) (by decide)).1⟩

/-- C2: products only in the current listing give exactly one `new_products`
record with current quantity and expiry; products only in the previous
listing give exactly one `removed_products` record with previous quantity;
every emitted New/Removed record arises this way; and diff against an empty
previous (resp. an empty current) yields only New (resp. only Removed)
records covering exactly the other listing's products. -/
theorem compare_inventory_new_removed
    (current previous : List InventoryItem) (now : String) :
    (∀ p ci, dictGet (toDict current) p = some ci →
      dictGet (toDict previous) p = none →
      (compare_inventory current previous now).new_products.filter
          (fun n => n.product == p)
        = [mkNewProduct ci now])
    ∧ (∀ n ∈ (compare_inventory current previous now).new_products,
        ∃ ci, dictGet (toDict current) n.product = some ci
          ∧ dictGet (toDict previous) n.product = none
          ∧ n = mkNewProduct ci now)
    ∧ (∀ p pi, dictGet (toDict previous) p = some pi →
      dictGet (toDict current) p = none →
      (compare_inventory current previous now).removed_products.filter
          (fun r => r.product == p)
        = [mkRemovedProduct pi now])
    ∧ (∀ r ∈ (compare_inventory current previous now).removed_products,
        ∃ pi, dictGet (toDict previous) r.product = some pi
          ∧ dictGet (toDict current) r.product = none
          ∧ r = mkRemovedProduct pi now)
    ∧ compare_inventory current [] now
        = ⟨[], (toDict current).map (mkNewProduct · now), [], now⟩
    ∧ compare_inventory [] previous now
        = ⟨[], [], (toDict previous).map (mkRemovedProduct · now), now⟩ := by
  refine ⟨?_, ?_, ?_, ?_, ?_, ?_⟩
  · intro p ci hc hp
    show ((toDict current).filterMap (newOf (toDict previous) now)).filter
      (fun n => n.product == p) = _
    rw [filterMap_filter_key NewProduct.product _
      (fun it x hx => newOf_product hx) _ (distinctProducts_toDict current) p]
    have hfind : (toDict current).find? (fun it => it.product == p) = some ci := hc
    rw [hfind]
    show (newOf (toDict previous) now ci).toList = _
    unfold newOf
    have hp' : dictGet (toDict previous) ci.product = none := by
      rw [dictGet_product hc]; exact hp
    rw [hp']
    rfl
  · intro n hnmem
    have hnmem' : n ∈ (toDict current).filterMap (newOf (toDict previous) now) :=
      hnmem
    obtain ⟨it, hit, hfit⟩ := List.mem_filterMap.mp hnmem'
    unfold newOf at hfit
    split at hfit
    · exact absurd hfit (by simp)
    · cases hfit
      rename_i hpd
      refine ⟨it, ?_, hpd, rfl⟩
      exact find?_of_mem_distinct _ (distinctProducts_toDict current) it hit
  · intro p pi hp hc
    show ((toDict previous).filterMap (removedOf (toDict current) now)).filter
      (fun r => r.product == p) = _
    rw [filterMap_filter_key RemovedProduct.product _
      (fun it x hx => removedOf_product hx) _ (distinctProducts_toDict previous) p]
    have hfind : (toDict previous).find? (fun it => it.product == p) = some pi := hp
    rw [hfind]
    show (removedOf (toDict current) now pi).toList = _
    unfold removedOf
    have hc' : dictGet (toDict current) pi.product = none := by
      rw [dictGet_product hp]; exact hc
    rw [hc']
    rfl
  · intro r hrmem
    have hrmem' : r ∈ (toDict previous).filterMap (removedOf (toDict current) now) :=
      hrmem
    obtain ⟨it, hit, hfit⟩ := List.mem_filterMap.mp hrmem'
    unfold removedOf at hfit
    split at hfit
    · exact absurd hfit (by simp)
    · cases hfit
      rename_i hcd
      refine ⟨it, ?_, hcd, rfl⟩
      exact find?_of_mem_distinct _ (distinctProducts_toDict previous) it hit
  · show ChangeSet.mk _ _ _ _ = _
    congr 1
    · rw [List.filterMap_eq_nil_iff]
      intro a _
      rfl
    · have h : newOf (toDict ([] : List InventoryItem)) now
          = fun ci => some (mkNewProduct ci now) := funext fun _ => rfl
      rw [h, filterMap_some_eq_map]
  · show ChangeSet.mk _ _ _ _ = _
    congr 1
    · have h : removedOf (toDict ([] : List InventoryItem)) now
          = fun pi => some (mkRemovedProduct pi now) := funext fun _ => rfl
      rw [h, filterMap_some_eq_map]

/-- C2 witness: a one-item current listing against a disjoint one-item
previous listing, instantiating the New-record characterization of
`compare_inventory_new_removed`. -/
theorem compare_inventory_new_removed_witness :
    (dictGet (toDict [(⟨"B", 5, "2025-01-01", "s"⟩ : InventoryItem)]) "B"
        = some ⟨"B", 5, "2025-01-01", "s"⟩)
    ∧ (dictGet (toDict [(⟨"C", 7, "2023-01-01", "s"⟩ : InventoryItem)]) "B"
        = none)
    ∧ ((compare_inventory [⟨"B", 5, "2025-01-01", "s"⟩]
          [⟨"C", 7, "2023-01-01", "s"⟩] "t").new_products.filter
            (fun n => n.product == "B")
        = [mkNewProduct ⟨"B", 5, "2025-01-01", "s"⟩ "t"]) :=
  ⟨by decide, by decide,
    (compare_inventory_new_removed [⟨"B", 5, "2025-01-01", "s"⟩]
      [⟨"C", 7, "2023-01-01", "s"⟩] "t").1 "B" ⟨"B", 5, "2025-01-01", "s"⟩
      (by decide) (by decide)⟩

theorem changeOf_strip (pd : List InventoryItem) (t₁ t₂ : String)
    (a : InventoryItem) :
    (changeOf pd t₁ a).map (fun c => { c with timestamp := "" })
      = (changeOf pd t₂ a).map (fun c => { c with timestamp := "" }) := by
  unfold changeOf
  cases dictGet pd a.product with
  | none => rfl
  | some pi =>
    by_cases h : a.quantity - pi.quantity ≠ 0 ∨ a.expiry_date ≠ pi.expiry_date
    · simp only [if_pos h]
      rfl
    · simp only [if_neg h]

theorem newOf_strip (pd : List InventoryItem) (t₁ t₂ : String)
    (a : InventoryItem) :
    (newOf pd t₁ a).map (fun n => { n with timestamp := "" })
      = (newOf pd t₂ a).map (fun n => { n with timestamp := "" }) := by
  unfold newOf
  cases dictGet pd a.product <;> rfl

theorem removedOf_strip (cd : List InventoryItem) (t₁ t₂ : String)
    (a : InventoryItem) :
    (removedOf cd t₁ a).map (fun r => { r with timestamp := "" })
      = (removedOf cd t₂ a).map (fun r => { r with timestamp := "" }) := by
  unfold removedOf
  cases dictGet cd a.product <;> rfl

/-- C3 (amended): `compare_inventory` is a total function of the two
listings and the clock reading; apart from the timestamp fields — which copy
the clock reading — its output is determined by the listings alone: any two
clock readings give change sets equal after erasing timestamps. -/
theorem compare_inventory_deterministic_modulo_timestamps
    (current previous : List InventoryItem) (t₁ t₂ : String) :
    stripTimestamps (compare_inventory current previous t₁)
      = stripTimestamps (compare_inventory current previous t₂) := by
  unfold stripTimestamps compare_inventory
  simp only [List.map_filterMap]
  congr 1
  · have h : (fun a => (changeOf (toDict previous) t₁ a).map
        (fun c => { c with timestamp := "" }))
        = fun a => (changeOf (toDict previous) t₂ a).map
            (fun c => { c with timestamp := "" }) :=
      funext (changeOf_strip (toDict previous) t₁ t₂)
    rw [h]
  · have h : (fun a => (newOf (toDict previous) t₁ a).map
        (fun n => { n with timestamp := "" }))
        = fun a => (newOf (toDict previous) t₂ a).map
            (fun n => { n with timestamp := "" }) :=
      funext (newOf_strip (toDict previous) t₁ t₂)
    rw [h]
  · have h : (fun a => (removedOf (toDict current) t₁ a).map
        (fun r => { r with timestamp := "" }))
        = fun a => (removedOf (toDict current) t₂ a).map
            (fun r => { r with timestamp := "" }) :=
      funext (removedOf_strip (toDict current) t₁ t₂)
    rw [h]

/-- C3 counterexample: the change set embeds `datetime.now()` readings, so
two runs of the differ on equal listings at different instants return
unequal `ChangeSet`s (already their top-level `timestamp` fields differ). -/
theorem compare_inventory_not_clock_independent :
    compare_inventory [] [] "2024-01-01T00:00:00"
      ≠ compare_inventory [] [] "2024-01-02T00:00:00" := by decide

/-- A value stored in the history mapping: under a plain key a listing,
under a `<key>_timestamp` key an ISO timestamp string. -/
inductive HistVal where
  | listing (l : List InventoryItem)
  | time (s : String)
deriving DecidableEq, Repr

/-- `self.history`: the JSON object backing the snapshot store, a Python
dict from string keys to listings or timestamp strings. -/
abbrev Hist := List (String × HistVal)

/-- Dict lookup on the history mapping. -/
def histGet (h : Hist) (k : String) : Option HistVal :=
  (h.find? (fun e => e.1 == k)).map (fun e => e.2)

/-- Dict assignment `self.history[k] = v`: existing key keeps its position
and gets the new value, new key is appended. -/
def histSet (h : Hist) (k : String) (v : HistVal) : Hist :=
  if h.any (fun e => e.1 == k) then
    h.map (fun e => if e.1 == k then (k, v) else e)
  else
    h ++ [(k, v)]

/-- `self.history.get(previous_key, [])` coerced to a listing (a well-typed
store holds listings under plain keys). -/
def getListing (h : Hist) (k : String) : List InventoryItem :=
  match histGet h k with
  | some (HistVal.listing l) => l
  | _ => []

/-- `InventoryMonitor._load_history` (lines 36-45).  The backing-file state
is modelled as: `none` = storage file missing; `some (.error e)` = file
exists but `json.load` raised `e` (logged); `some (.ok h)` = parsed mapping. -/
def _load_history : Option (Except String Hist) → Hist
  | none => []
  | some (Except.error _) => []
  | some (Except.ok h) => h

/-- `InventoryMonitor.save_inventory_snapshot` (lines 172-182): store the
listing under `key`, the clock reading under `key + '_timestamp'`, then
`_save_history` writes the whole document. -/
def save_inventory_snapshot (h : Hist) (inventory : List InventoryItem)
    (key : String) (now : String) : Hist :=
  histSet (histSet h key (HistVal.listing inventory))
    (key ++ "_timestamp") (HistVal.time now)

/-- One atomic file-system step of a write sequence. -/
inductive FsOp where
  | truncate
  | write (content : String)
deriving DecidableEq, Repr

/-- The write steps of `_save_history` (lines 47-54):
`open(self.storage_file, 'w')` truncates the target file in place, then
`json.dump` writes the serialized history into it.  No temporary file and
no rename are involved. -/
def _save_history_ops (serialized : String) : List FsOp :=
  [FsOp.truncate, FsOp.write serialized]

def applyFsOp (_file : String) : FsOp → String
  | FsOp.truncate => ""
  | FsOp.write s => s

/-- Every on-disk content observable if the process crashes before, between
or after the steps of a write sequence. -/
def crashStates (file : String) : List FsOp → List String
  | [] => [file]
  | op :: ops => file :: crashStates (applyFsOp file op) ops


/-- A write sequence replacing `init` by `final` is atomic (in the
write-to-temp-then-rename sense) if every crash state still holds one of
the two complete documents. -/
def atomicCrashSafe (init final : String) (ops : List FsOp) : Prop :=
  ∀ st ∈ crashStates init ops, st = init ∨ st = final

instance (init final : String) (ops : List FsOp) :
    Decidable (atomicCrashSafe init final ops) :=
  inferInstanceAs (Decidable (∀ st ∈ crashStates init ops, st = init ∨ st = final))

theorem find?_cons_pos {α : Type} (p : α → Bool) (a : α) (l : List α)
    (h : p a = true) : (a :: l).find? p = some a := by
  simp [List.find?, h]

theorem find?_cons_neg {α : Type} (p : α → Bool) (a : α) (l : List α)
    (h : p a = false) : (a :: l).find? p = l.find? p := by
  simp [List.find?, h]

theorem find?_histSet_map_self (k : String) (v : HistVal) :
    ∀ (h : Hist), h.any (fun e => e.1 == k) = true →
      ((h.map (fun e => if e.1 == k then (k, v) else e)).find?
        (fun e => e.1 == k)) = some (k, v) := by
  intro h
  induction h with
  | nil => intro hany; simp at hany
  | cons e t ih =>
    intro hany
    by_cases he : (e.1 == k) = true
    · rw [List.map_cons, if_pos he]
      exact find?_cons_pos _ _ _ (by simp)
    · have hef : (e.1 == k) = false := by simpa using he
      have htail : t.any (fun e => e.1 == k) = true := by
        simpa [List.any_cons, hef] using hany
      rw [List.map_cons, if_neg he, find?_cons_neg (fun e => e.1 == k) e _ hef]
      exact ih htail

theorem find?_append_single_self (k : String) (v : HistVal) :
    ∀ (h : Hist), h.any (fun e => e.1 == k) = false →
      ((h ++ [(k, v)]).find? (fun e => e.1 == k)) = some (k, v) := by
  intro h
  induction h with
  | nil =>
    intro _
    rw [List.nil_append]
    exact find?_cons_pos _ _ _ (by simp)
  | cons e t ih =>
    intro hany
    rw [List.any_cons, Bool.or_eq_false_iff] at hany
    rw [List.cons_append, find?_cons_neg (fun e => e.1 == k) e _ hany.1]
    exact ih hany.2

theorem find?_histSet_map_ne (k k' : String) (v : HistVal) (hne : k' ≠ k) :
    ∀ (h : Hist),
      ((h.map (fun e => if e.1 == k then (k, v) else e)).find?
        (fun e => e.1 == k')) = h.find? (fun e => e.1 == k') := by
  intro h
  have hkk : (k == k') = false := by
    simp only [beq_eq_false_iff_ne, ne_eq]
    exact fun hc => hne hc.symm
  induction h with
  | nil => rfl
  | cons e t ih =>
    rw [List.map_cons]
    by_cases he : (e.1 == k) = true
    · have hek : e.1 = k := beq_iff_eq.mp he
      have h2 : (e.1 == k') = false := by rw [hek]; exact hkk
      rw [if_pos he, find?_cons_neg (fun e => e.1 == k') (k, v) _ hkk,
        find?_cons_neg (fun e => e.1 == k') e _ h2]
      exact ih
    · rw [if_neg he]
      by_cases he' : (e.1 == k') = true
      · rw [find?_cons_pos (fun e => e.1 == k') e _ he',
          find?_cons_pos (fun e => e.1 == k') e _ he']
      · have he'f : (e.1 == k') = false := by simpa using he'
        rw [find?_cons_neg (fun e => e.1 == k') e _ he'f,
          find?_cons_neg (fun e => e.1 == k') e _ he'f]
        exact ih

theorem find?_append_single_ne (k k' : String) (v : HistVal) (hne : k' ≠ k) :
    ∀ (h : Hist),
      ((h ++ [(k, v)]).find? (fun e => e.1 == k'))
        = h.find? (fun e => e.1 == k') := by
  intro h
  have hkk : (k == k') = false := by
    simp only [beq_eq_false_iff_ne, ne_eq]
    exact fun hc => hne hc.symm
  induction h with
  | nil =>
    rw [List.nil_append, find?_cons_neg (fun e => e.1 == k') (k, v) _ hkk]
  | cons e t ih =>
    rw [List.cons_append]
    by_cases he' : (e.1 == k') = true
    · rw [find?_cons_pos (fun e => e.1 == k') e _ he',
        find?_cons_pos (fun e => e.1 == k') e _ he']
    · have he'f : (e.1 == k') = false := by simpa using he'
      rw [find?_cons_neg (fun e => e.1 == k') e _ he'f,
        find?_cons_neg (fun e => e.1 == k') e _ he'f]
      exact ih

theorem histGet_histSet_self (h : Hist) (k : String) (v : HistVal) :
    histGet (histSet h k v) k = some v := by
  unfold histGet histSet
  by_cases hany : h.any (fun e => e.1 == k)
  · rw [if_pos hany, find?_histSet_map_self k v h hany]
    rfl
  · have hf : h.any (fun e => e.1 == k) = false := by
      cases hx : h.any (fun e => e.1 == k)
      · rfl
      · exact absurd hx hany
    rw [if_neg hany, find?_append_single_self k v h hf]
    rfl

theorem histGet_histSet_ne (h : Hist) (k k' : String) (v : HistVal)
    (hne : k' ≠ k) : histGet (histSet h k v) k' = histGet h k' := by
  unfold histGet histSet
  by_cases hany : h.any (fun e => e.1 == k)
  · rw [if_pos hany, find?_histSet_map_ne k k' v hne h]
  · rw [if_neg hany, find?_append_single_ne k k' v hne h]

theorem key_ne_key_timestamp (key : String) : key ≠ key ++ "_timestamp" := by
  intro hcon
  have hlen := congrArg String.length hcon
  rw [String.length_append] at hlen
  have hts : ("_timestamp" : String).length = 10 := rfl
  omega

/-- C7: loading the snapshot store never fails: a missing backing file
yields an empty store, a backing file on which `json.load` raises yields an
empty store (the error is logged, not re-raised), and a parsed file yields
its contents. -/
theorem load_history_total_fallback :
    _load_history none = []
    ∧ (∀ e, _load_history (some (Except.error e)) = [])
    ∧ (∀ h, _load_history (some (Except.ok h)) = h) :=
  ⟨rfl, fun _ => rfl, fun _ => rfl⟩

/-- C6 counterexample: `_save_history` truncates the storage file in place
(`open(..., 'w')`) and then writes the new serialization; the crash state
between the two steps holds neither the old nor the new document, so the
write sequence is not write-to-temp-then-rename atomic. -/
theorem save_history_not_crash_atomic :
    ¬ atomicCrashSafe "old" "new" (_save_history_ops "new") := by decide

/-- C6 (amended): `save_inventory_snapshot` overwrites the key's prior
value, records a sibling `<key>_timestamp` entry and touches no other key;
but persistence is a direct truncate-then-rewrite of the whole document,
which admits a crash state holding neither the old nor the new contents. -/
theorem save_inventory_snapshot_properties
    (h : Hist) (key : String) (inventory : List InventoryItem) (now : String) :
    histGet (save_inventory_snapshot h inventory key now) key
        = some (HistVal.listing inventory)
    ∧ histGet (save_inventory_snapshot h inventory key now)
        (key ++ "_timestamp") = some (HistVal.time now)
    ∧ (∀ k', k' ≠ key → k' ≠ key ++ "_timestamp" →
        histGet (save_inventory_snapshot h inventory key now) k' = histGet h k')
    ∧ (∀ init serialized : String, init ≠ "" → serialized ≠ "" →
        ¬ atomicCrashSafe init serialized (_save_history_ops serialized)) := by
  refine ⟨?_, ?_, ?_, ?_⟩
  · unfold save_inventory_snapshot
    rw [histGet_histSet_ne _ _ _ _ (key_ne_key_timestamp key)]
    exact histGet_histSet_self h key (HistVal.listing inventory)
  · exact histGet_histSet_self _ (key ++ "_timestamp") (HistVal.time now)
  · intro k' hk1 hk2
    unfold save_inventory_snapshot
    rw [histGet_histSet_ne _ _ _ _ hk2, histGet_histSet_ne _ _ _ _ hk1]
  · intro init serialized hinit hser hatomic
    have hmem : "" ∈ crashStates init (_save_history_ops serialized) := by
      have hcs : crashStates init (_save_history_ops serialized)
          = [init, "", serialized] := rfl
      rw [hcs]
      simp
    rcases hatomic "" hmem with hc | hc
    · exact hinit hc.symm
    · exact hser hc.symm

/-- C6 witness: the amended save properties instantiated at a concrete
store, key and serialization. -/
theorem save_inventory_snapshot_properties_witness :
    ("other" : String) ≠ "latest"
    ∧ ("other" : String) ≠ "latest" ++ "_timestamp"
    ∧ histGet (save_inventory_snapshot [] [] "latest" "t") "other"
        = histGet [] "other"
    ∧ ("old" : String) ≠ ""
    ∧ ("new" : String) ≠ ""
    ∧ ¬ atomicCrashSafe "old" "new" (_save_history_ops "new") :=
  ⟨by decide, by decide,
    (save_inventory_snapshot_properties [] "latest" [] "t").2.2.1 "other"
      (by decide) (by decide),
    by decide, by decide,
    (save_inventory_snapshot_properties [] "latest" [] "t").2.2.2 "old" "new"
      (by decide) (by decide)⟩

/-- Gregorian leap-year rule (as in Python's `datetime`). -/
def isLeapYear (y : Nat) : Bool :=
  y % 4 == 0 && (y % 100 != 0 || y % 400 == 0)

/-- Length of a month, matching `datetime`'s calendar. -/
def daysInMonth (y m : Nat) : Nat :=
  if m = 2 then (if isLeapYear y then 29 else 28)
  else if m = 4 ∨ m = 6 ∨ m = 9 ∨ m = 11 then 30
  else 31

/-- `datetime(year, month, day)` constructor validity: year 1-9999 (MINYEAR
to MAXYEAR), month 1-12, day within the month. -/
def validDate (y m d : Nat) : Bool :=
  decide (1 ≤ y) && decide (y ≤ 9999) && decide (1 ≤ m) && decide (m ≤ 12)
    && decide (1 ≤ d) && decide (d ≤ daysInMonth y m)

/-- A parsed calendar date. -/
structure CivilDate where
  year : Nat
  month : Nat
  day : Nat
deriving DecidableEq, Repr

/-- Day number of a civil date (days since 1970-01-01, the standard
days-from-civil algorithm); models `datetime` subtraction: the difference
of two dates in days is the difference of their day numbers. -/
def dateToDays (dt : CivilDate) : Int :=
  let y : Int := if dt.month ≤ 2 then (dt.year : Int) - 1 else (dt.year : Int)
  let era : Int := y.fdiv 400
  let yoe : Int := y - era * 400
  let mp : Int := ((dt.month : Int) + 9) % 12
  let doy : Int := (153 * mp + 2).fdiv 5 + (dt.day : Int) - 1
  let doe : Int := yoe * 365 + yoe.fdiv 4 - yoe.fdiv 100 + doy
  era * 146097 + doe - 719468

/-- Exactly `n` consecutive characters matching `\d` (modelled as ASCII
digits), returning the digits and the rest. -/
def takeDigits : Nat → List Char → Option (List Char × List Char)
  | 0, cs => some ([], cs)
  | _ + 1, [] => none
  | n + 1, c :: cs =>
    if c.isDigit then (takeDigits n cs).map (fun r => (c :: r.1, r.2))
    else none

/-- One character from a character class, returning the rest. -/
def matchClass (cls : List Char) (cs : List Char) : Option (List Char) :=
  match cs with
  | c :: rest => if cls.contains c then some rest else none
  | [] => none

/-- `\d` then a class character (the one-digit fallback of `\d{1,2}`). -/
def take1Then (cls : List Char) (cs : List Char) :
    Option (List Char × List Char) :=
  match takeDigits 1 cs with
  | some (d1, rest) => (matchClass cls rest).map (fun r => (d1, r))
  | none => none

/-- Greedy `\d{1,2}` followed by a class character, with regex
backtracking: two digits are preferred, one digit is retried if the
separator then fails. -/
def take12Then (cls : List Char) (cs : List Char) :
    Option (List Char × List Char) :=
  match takeDigits 2 cs with
  | some (d2, rest) =>
    match matchClass cls rest with
    | some rest' => some (d2, rest')
    | none => take1Then cls cs
  | none => take1Then cls cs

/-- Greedy `\d{1,2}` with nothing mandatory after it (the day group, which
is only followed by the optional `[日]?`). -/
def take12End (cs : List Char) : Option (List Char) :=
  match takeDigits 2 cs with
  | some (d2, _) => some d2
  | none => (takeDigits 1 cs).map (fun r => r.1)

/-- Match one date pattern `(\d{ylen})[sep1](\d{1,2})[sep2](\d{1,2})[日]?`
anchored at the start of `cs`, returning the three groups. -/
def matchDateAt (ylen : Nat) (sep1 sep2 : List Char) (cs : List Char) :
    Option (List Char × List Char × List Char) :=
  match takeDigits ylen cs with
  | none => none
  | some (y, rest) =>
    match matchClass sep1 rest with
    | none => none
    | some rest1 =>
      match take12Then sep2 rest1 with
      | none => none
      | some (mo, rest2) => (take12End rest2).map (fun d => (y, mo, d))

/-- `re.search` for a date pattern: leftmost position whose anchored match
succeeds. -/
def searchDate (ylen : Nat) (sep1 sep2 : List Char) :
    List Char → Option (List Char × List Char × List Char)
  | [] => none
  | c :: rest =>
    match matchDateAt ylen sep1 sep2 (c :: rest) with
    | some g => some g
    | none => searchDate ylen sep1 sep2 rest

/-- Numeric value of a digit group (`int(...)`). -/
def toNatDigits (ds : List Char) : Nat :=
  ds.foldl (fun n c => n * 10 + (c.toNat - '0'.toNat)) 0

/-- `%m` / `%d` formatting: zero-padded to two digits. -/
def pad2 (n : Nat) : String :=
  if n < 10 then "0" ++ toString n else toString n

/-- `strftime('%Y-%m-%d')`: the year as printed by `%Y` on the target
platform (no padding for years below 1000), month and day zero-padded. -/
def fmtDate (y m d : Nat) : String :=
  toString y ++ "-" ++ pad2 m ++ "-" ++ pad2 d

/-- `datetime.strptime(s, '%Y-%m-%d')`: exactly four digits, `-`, one or
two digits, `-`, one or two digits consuming the whole string, then the
constructor's calendar validation. -/
def parseIsoDate (s : String) : Option CivilDate :=
  match takeDigits 4 s.data with
  | none => none
  | some (y, rest) =>
    match matchClass ['-'] rest with
    | none => none
    | some rest1 =>
      match take12Then ['-'] rest1 with
      | none => none
      | some (mo, rest2) =>
        let day? : Option (List Char) :=
          match takeDigits 2 rest2 with
          | some (d2, []) => some d2
          | _ =>
            match takeDigits 1 rest2 with
            | some (d1, []) => some d1
            | _ => none
        match day? with
        | none => none
        | some d =>
          let yn := toNatDigits y
          let mn := toNatDigits mo
          let dn := toNatDigits d
          if validDate yn mn dn then some ⟨yn, mn, dn⟩ else none

/-- An inventory item copy enriched with the computed `days_until_expiry`
key (`item_copy` in `get_expiring_soon_products`). -/
structure ExpiringItem where
  item : InventoryItem
  days_until_expiry : Int
deriving DecidableEq, Repr

/-- Sort key of the expiry scan: ascending `days_until_expiry`. -/
def leDays (a b : ExpiringItem) : Prop :=
  a.days_until_expiry ≤ b.days_until_expiry

instance : DecidableRel leDays :=
  fun a b => inferInstanceAs (Decidable (a.days_until_expiry ≤ b.days_until_expiry))

instance : IsTotal ExpiringItem leDays :=
  ⟨fun a b => Int.le_total a.days_until_expiry b.days_until_expiry⟩

instance : IsTrans ExpiringItem leDays :=
  ⟨fun _ _ _ => Int.le_trans⟩

/-- Loop body of `get_expiring_soon_products` (lines 289-299): parse the
expiry date (parse failure is skipped), keep the item when
`expiry_date <= now + timedelta(days)` and record
`(expiry_date - now).days` (floor division of the timedelta).  The current
instant is `nowDays` (calendar day number) plus `nowSec` seconds past
midnight. -/
def keepExpiring (days nowDays : Int) (nowSec : Nat) (it : InventoryItem) :
    Option ExpiringItem :=
  match parseIsoDate it.expiry_date with
  | none => none
  | some e =>
    let eAbs : Int := 86400 * dateToDays e
    let nowAbs : Int := 86400 * nowDays + nowSec
    if eAbs ≤ nowAbs + 86400 * days then
      some ⟨it, (eAbs - nowAbs).fdiv 86400⟩
    else none

/-- `InventoryMonitor.get_expiring_soon_products` (lines 273-303): filter
by the cutoff, then `list.sort` (stable) ascending by `days_until_expiry`. -/
def get_expiring_soon_products (inventory : List InventoryItem)
    (days nowDays : Int) (nowSec : Nat) : List ExpiringItem :=
  List.insertionSort leDays (inventory.filterMap (keepExpiring days nowDays nowSec))

/-- C5 counterexample: at `now = 2024-01-10 12:00:00` with a 30-day
horizon, the item expiring `2024-02-10` is excluded by the code's cutoff
(`expiry ≤ now + 30 days` fails by half a day), yet its
`days_until_expiry`, as the code computes it (`(expiry - now).days`,
flooring), equals 30 ≤ 30 — so the scanner does not return every item with
`days_until_expiry ≤ horizon`. -/
theorem get_expiring_soon_products_boundary_counterexample :
    parseIsoDate "2024-02-10" = some ⟨2024, 2, 10⟩
    ∧ get_expiring_soon_products [⟨"A", 1, "2024-02-10", "s"⟩] 30
        (dateToDays ⟨2024, 1, 10⟩) 43200 = []
    ∧ (86400 * dateToDays ⟨2024, 2, 10⟩
        - (86400 * dateToDays ⟨2024, 1, 10⟩ + 43200)).fdiv 86400 = 30
    ∧ ((30 : Int) ≤ 30) :=
  ⟨by decide, by decide, by decide, by decide⟩

/-- C5 (amended): the expiry scanner is total — items whose `expiry_date`
fails to parse as `YYYY-MM-DD` are silently skipped; an item is kept iff
its expiry date lies at most `days` calendar days after the current date
(the code's `expiry ≤ now + timedelta(days)` cutoff, which includes
already-expired items); the reported `days_until_expiry` is exactly that
calendar-day difference when `now` is at midnight and one less otherwise
(so a kept item always has `days_until_expiry ≤ days`, but at a
non-midnight `now` the item with `days_until_expiry = days` is excluded);
and the result is sorted ascending by `days_until_expiry` and is a
permutation of the kept items in scan order. -/
theorem get_expiring_soon_products_characterization
    (inventory : List InventoryItem) (days nowDays : Int) (nowSec : Nat)
    (h86 : nowSec < 86400) :
    List.Sorted leDays (get_expiring_soon_products inventory days nowDays nowSec)
    ∧ (get_expiring_soon_products inventory days nowDays nowSec).Perm
        (inventory.filterMap (keepExpiring days nowDays nowSec))
    ∧ (∀ it : InventoryItem,
        keepExpiring days nowDays nowSec it
          = match parseIsoDate it.expiry_date with
            | none => none
            | some e =>
              if dateToDays e - nowDays ≤ days then
                some ⟨it, dateToDays e - nowDays - (if nowSec = 0 then 0 else 1)⟩
              else none) := by
  refine ⟨List.sorted_insertionSort leDays _, List.perm_insertionSort leDays _, ?_⟩
  intro it
  unfold keepExpiring
  cases parseIsoDate it.expiry_date with
  | none => rfl
  | some e =>
    dsimp only
    by_cases hcnd : dateToDays e - nowDays ≤ days
    · have hc : 86400 * dateToDays e
          ≤ 86400 * nowDays + ↑nowSec + 86400 * days := by omega
      rw [if_pos hc, if_pos hcnd]
      have hval : (86400 * dateToDays e - (86400 * nowDays + ↑nowSec)).fdiv 86400
          = dateToDays e - nowDays - (if nowSec = 0 then 0 else 1) := by
        rw [Int.fdiv_eq_ediv _ (by norm_num)]
        by_cases h0 : nowSec = 0
        · rw [if_pos h0]
          subst h0
          omega
        · rw [if_neg h0]
          omega
      rw [hval]
    · have hc : ¬ (86400 * dateToDays e
          ≤ 86400 * nowDays + ↑nowSec + 86400 * days) := by omega
      rw [if_neg hc, if_neg hcnd]

/-- C5 witness: the amended characterization instantiated at a concrete
noon instant. -/
theorem get_expiring_soon_products_characterization_witness :
    (43200 : Nat) < 86400
    ∧ List.Sorted leDays (get_expiring_soon_products
        [⟨"A", 1, "2024-02-10", "s"⟩] 31 (dateToDays ⟨2024, 1, 10⟩) 43200) :=
  ⟨by decide,
    (get_expiring_soon_products_characterization
      [⟨"A", 1, "2024-02-10", "s"⟩] 31 (dateToDays ⟨2024, 1, 10⟩) 43200
      (by decide)).1⟩

/-- Outcome of `monitor.get_current_inventory(...)`: the fetch either
raises (network/login/scrape failure) or returns a listing. -/
inductive FetchOutcome where
  | failure
  | ok (inventory : List InventoryItem)
deriving DecidableEq, Repr

/-- Observable side effects of one monitoring cycle. -/
structure CycleEffects where
  compared : Bool
  notifiedShipment : Bool
  savedChangesToSheets : Bool
  savedSnapshot : Bool
  savedInventoryToSheets : Bool
  notifiedExpiry : Bool
deriving DecidableEq, Repr

/-- The effects of a cycle that aborts before comparing. -/
def CycleEffects.noEffects : CycleEffects :=
  ⟨false, false, false, false, false, false⟩

/-- `InventoryNotifier.notify_shipment` (inventory_notifier.py lines
31-53): re-filters the shipments itself and reports (console, and email if
configured) iff that filter is nonempty.  Returns whether a report was
emitted. -/
def notify_shipment (changes : ChangeSet) : Bool :=
  !(changes.changes.filter (fun c => c.type == ChangeType.shipment)).isEmpty

/-- `InventoryMonitor.save_changes_to_sheets` (lines 228-271): builds one
row per entry of `changes['changes']` and appends them iff a sheets client
is configured and the row list is nonempty.  Returns whether rows were
appended. -/
def save_changes_to_sheets (sheetsConfigured : Bool) (changes : ChangeSet) :
    Bool :=
  sheetsConfigured && !(changes.changes.map (fun c => c.product)).isEmpty

/-- `InventoryMonitor._save_to_sheets` (lines 188-226): one row per
inventory item, appended iff a sheets client is configured and the listing
is nonempty. -/
def _save_to_sheets (sheetsConfigured : Bool)
    (inventory : List InventoryItem) : Bool :=
  sheetsConfigured && !inventory.isEmpty

/-- `check_inventory_once` (inventory_monitor_main.py lines 28-93).
A raising fetch is caught by the surrounding `except` (line 92): nothing
else happens.  An empty listing logs a warning and returns before
comparing.  Otherwise: compare against `history['latest']`; if the changes
contain a shipment, notify and save the change rows; always save the
snapshot (which also appends the inventory to sheets when configured); then
run the expiry check when enabled. -/
def check_inventory_once (fetch : FetchOutcome) (hist : Hist)
    (sheetsConfigured check_expiry : Bool) (expiry_days nowDays : Int)
    (nowSec : Nat) (now : String) : Hist × CycleEffects :=
  match fetch with
  | FetchOutcome.failure => (hist, CycleEffects.noEffects)
  | FetchOutcome.ok current_inventory =>
    if current_inventory.isEmpty then (hist, CycleEffects.noEffects)
    else
      let changes := compare_inventory current_inventory
        (getListing hist "latest") now
      let shipments := changes.changes.filter
        (fun c => c.type == ChangeType.shipment)
      let notified := if !shipments.isEmpty then notify_shipment changes
        else false
      let savedChanges := if !shipments.isEmpty then
        save_changes_to_sheets sheetsConfigured changes else false
      let hist2 := save_inventory_snapshot hist current_inventory "latest" now
      let savedInv := _save_to_sheets sheetsConfigured current_inventory
      let expiring := if check_expiry then
        get_expiring_soon_products current_inventory expiry_days nowDays nowSec
        else []
      let notifiedExp := check_expiry && !expiring.isEmpty
      (hist2, ⟨true, notified, savedChanges, true, savedInv, notifiedExp⟩)

/-- C4: a failed fetch or an empty listing aborts the cycle with no
comparison, no persistence and no notification, leaving the history (in
particular `latest`) untouched; and a successful non-empty fetch overwrites
`latest` with exactly the fetched listing — so `latest` always reflects the
most recently completed successful non-empty fetch. -/
theorem check_inventory_once_latest_invariant (hist : Hist)
    (sheetsConfigured check_expiry : Bool) (expiry_days nowDays : Int)
    (nowSec : Nat) (now : String) :
    check_inventory_once FetchOutcome.failure hist sheetsConfigured
        check_expiry expiry_days nowDays nowSec now
      = (hist, CycleEffects.noEffects)
    ∧ check_inventory_once (FetchOutcome.ok []) hist sheetsConfigured
        check_expiry expiry_days nowDays nowSec now
      = (hist, CycleEffects.noEffects)
    ∧ (∀ inv : List InventoryItem, inv ≠ [] →
        histGet (check_inventory_once (FetchOutcome.ok inv) hist
          sheetsConfigured check_expiry expiry_days nowDays nowSec now).1
            "latest" = some (HistVal.listing inv)
        ∧ (check_inventory_once (FetchOutcome.ok inv) hist sheetsConfigured
            check_expiry expiry_days nowDays nowSec now).2.savedSnapshot
          = true) := by
  refine ⟨rfl, rfl, ?_⟩
  intro inv hinv
  have hne : inv.isEmpty = false := by
    cases inv
    · exact absurd rfl hinv
    · rfl
  constructor
  · show histGet (if inv.isEmpty then (hist, CycleEffects.noEffects)
      else _).1 "latest" = _
    rw [hne]
    show histGet (save_inventory_snapshot hist inv "latest" now) "latest" = _
    exact (save_inventory_snapshot_properties hist "latest" inv now).1
  · show (if inv.isEmpty then (hist, CycleEffects.noEffects)
      else _).2.savedSnapshot = true
    rw [hne]
    rfl

/-- C4 witness: the invariant instantiated at a failed fetch and at a
concrete non-empty fetch. -/
theorem check_inventory_once_latest_invariant_witness :
    check_inventory_once FetchOutcome.failure [] true true 30 0 0 "t"
      = ([], CycleEffects.noEffects)
    ∧ ([(⟨"A", 1, "2024-01-01", "s"⟩ : InventoryItem)] ≠ [])
    ∧ histGet (check_inventory_once
        (FetchOutcome.ok [⟨"A", 1, "2024-01-01", "s"⟩]) [] true true 30 0 0
          "t").1 "latest"
      = some (HistVal.listing [⟨"A", 1, "2024-01-01", "s"⟩]) :=
  ⟨(check_inventory_once_latest_invariant [] true true 30 0 0 "t").1,
    by decide,
    ((check_inventory_once_latest_invariant [] true true 30 0 0 "t").2.2
      [⟨"A", 1, "2024-01-01", "s"⟩] (by decide)).1⟩

/-- C10: in a cycle with a successful non-empty fetch and a sheets client
configured, the shipment notification and the append to the
inventory-changes sheet happen iff the computed change set contains at
least one shipment event; the snapshot is persisted either way. -/
theorem check_inventory_once_shipment_gating
    (inv : List InventoryItem) (hist : Hist) (check_expiry : Bool)
    (expiry_days nowDays : Int) (nowSec : Nat) (now : String)
    (hinv : inv ≠ []) :
    ((check_inventory_once (FetchOutcome.ok inv) hist true check_expiry
        expiry_days nowDays nowSec now).2.notifiedShipment = true
      ↔ (compare_inventory inv (getListing hist "latest") now).changes.filter
          (fun c => c.type == ChangeType.shipment) ≠ [])
    ∧ ((check_inventory_once (FetchOutcome.ok inv) hist true check_expiry
        expiry_days nowDays nowSec now).2.savedChangesToSheets = true
      ↔ (compare_inventory inv (getListing hist "latest") now).changes.filter
          (fun c => c.type == ChangeType.shipment) ≠ [])
    ∧ (check_inventory_once (FetchOutcome.ok inv) hist true check_expiry
        expiry_days nowDays nowSec now).2.savedSnapshot = true := by
  have hne : inv.isEmpty = false := by
    cases inv
    · exact absurd rfl hinv
    · rfl
  simp only [check_inventory_once, hne, Bool.false_eq_true, if_false,
    notify_shipment, save_changes_to_sheets, Bool.true_and]
  set ch := compare_inventory inv (getListing hist "latest") now with hch
  set s := ch.changes.filter (fun c => c.type == ChangeType.shipment) with hs
  refine ⟨?_, ?_, trivial⟩
  · cases hsi : s.isEmpty
    · have hsne : s ≠ [] := by
        intro h0
        rw [h0] at hsi
        exact absurd hsi (by simp)
      simp [hsi, hsne]
    · have hseq : s = [] := by
        cases hx : s
        · rfl
        · rw [hx] at hsi; simp at hsi
      simp [hsi, hseq]
  · cases hsi : s.isEmpty
    · have hsne : s ≠ [] := by
        intro h0
        rw [h0] at hsi
        exact absurd hsi (by simp)
      have hchne : ch.changes ≠ [] := by
        intro h0
        apply hsne
        rw [hs, h0]
        rfl
      have hmapne : (ch.changes.map (fun c => c.product)).isEmpty = false := by
        cases hx : ch.changes
        · exact absurd hx hchne
        · rfl
      simp [hsi, hsne, hmapne]
    · have hseq : s = [] := by
        cases hx : s
        · rfl
        · rw [hx] at hsi; simp at hsi
      simp [hsi, hseq]

/-- C10 witness: a cycle whose diff against the stored snapshot contains a
shipment (quantity 10 → 4), instantiating the gating equivalences. -/
theorem check_inventory_once_shipment_gating_witness :
    ([(⟨"A", 4, "2024-01-01", "s"⟩ : InventoryItem)] ≠ [])
    ∧ ((check_inventory_once
        (FetchOutcome.ok [⟨"A", 4, "2024-01-01", "s"⟩])
        [("latest", HistVal.listing [⟨"A", 10, "2024-01-01", "s"⟩])]
        true true 30 0 0 "t").2.notifiedShipment = true
      ↔ (compare_inventory [⟨"A", 4, "2024-01-01", "s"⟩]
          (getListing [("latest",
            HistVal.listing [⟨"A", 10, "2024-01-01", "s"⟩])] "latest")
          "t").changes.filter (fun c => c.type == ChangeType.shipment) ≠ []) :=
  ⟨by decide,
    (check_inventory_once_shipment_gating [⟨"A", 4, "2024-01-01", "s"⟩]
      [("latest", HistVal.listing [⟨"A", 10, "2024-01-01", "s"⟩])]
      true 30 0 0 "t" (by decide)).1⟩

/-- Validate matched date groups as `extract_date` does (data_extractor.py
lines 46-63): apply the two-digit-year century heuristic (the code's
`0 <= year_int <= 99` guard always holds for a two-digit group), build
`datetime(year, month, day)` and format it — `none` when the constructor
would raise `ValueError`. -/
def validateAndFormat (gr : List Char × List Char × List Char) :
    Option String :=
  let y := gr.1
  let mo := gr.2.1
  let d := gr.2.2
  let yn : Nat :=
    if y.length == 2 then
      (if toNatDigits y ≤ 30 then 2000 + toNatDigits y
       else 1900 + toNatDigits y)
    else toNatDigits y
  let mn := toNatDigits mo
  let dn := toNatDigits d
  if validDate yn mn dn then some (fmtDate yn mn dn) else none

/-- One iteration of the pattern loop of `extract_date`: a pattern that did
not match, or matched an invalid calendar date (`ValueError` → `continue`),
falls through to the continuation `k`. -/
def tryGroups (g : Option (List Char × List Char × List Char))
    (k : Option String) : Option String :=
  match g with
  | none => k
  | some gr =>
    match validateAndFormat gr with
    | some s => some s
    | none => k

/-- `OrderDataExtractor.extract_date` (data_extractor.py lines 34-65):
try `(\d{4})[年/](\d{1,2})[月/](\d{1,2})[日]?`, then the two-digit-year
variant, then `(\d{4})-(\d{1,2})-(\d{1,2})`, in that order. -/
def extract_date (text : String) : Option String :=
  tryGroups (searchDate 4 ['年', '/'] ['月', '/'] text.data)
    (tryGroups (searchDate 2 ['年', '/'] ['月', '/'] text.data)
      (tryGroups (searchDate 4 ['-'] ['-'] text.data) none))

/-- The date-extraction rule as the specification words it: the three
patterns are tried in order and the first one that both matches and forms
a valid calendar date yields that date; no match (or only invalid matches)
yields absence. -/
def extractDateSpec (text : String) : Option String :=
  [searchDate 4 ['年', '/'] ['月', '/'] text.data,
   searchDate 2 ['年', '/'] ['月', '/'] text.data,
   searchDate 4 ['-'] ['-'] text.data].findSome?
    (fun g => g.bind validateAndFormat)

theorem tryGroups_eq_bind (g : Option (List Char × List Char × List Char))
    (k : Option String) :
    tryGroups g k = match g.bind validateAndFormat with
      | some s => some s
      | none => k := by
  cases g with
  | none => rfl
  | some gr =>
    show tryGroups (some gr) k = match validateAndFormat gr with
      | some s => some s
      | none => k
    unfold tryGroups
    rfl

/-- C8: date extraction tries the three patterns in order (four-digit-year
CJK/slash form, two-digit-year variant with the century heuristic
`year ≤ 30 ⇒ 2000+year` else `1900+year`, then `YYYY-MM-DD`); the first
pattern whose leftmost match forms a valid calendar date yields that date
formatted, invalid calendar dates fall through to the next pattern rather
than raising, and no match yields `none` — checked against the spec's own
examples, including the invalid-month one. -/
theorem extract_date_pattern_order :
    (∀ text, extract_date text = extractDateSpec text)
    ∧ extract_date "注文日: 2024年3月5日" = some "2024-03-05"
    ∧ extract_date "納期 24/3/5" = some "2024-03-05"
    ∧ extract_date "2024-13-01" = none := by
  refine ⟨?_, by decide, by decide, by decide⟩
  intro text
  unfold extract_date extractDateSpec
  rw [tryGroups_eq_bind, tryGroups_eq_bind, tryGroups_eq_bind]
  rw [List.findSome?_cons, List.findSome?_cons, List.findSome?_cons,
    List.findSome?_nil]
  cases (searchDate 4 ['年', '/'] ['月', '/'] text.data).bind validateAndFormat <;>
    cases (searchDate 2 ['年', '/'] ['月', '/'] text.data).bind validateAndFormat <;>
      cases (searchDate 4 ['-'] ['-'] text.data).bind validateAndFormat <;> rfl

/-- `\s` of the item-extraction regexes (ASCII whitespace plus the
ideographic space). -/
def isPySpace (c : Char) : Bool :=
  c == ' ' || c == '\t' || c == '\n' || c == '\r' || c == '\x0b'
    || c == '\x0c' || c == '　'

/-- `str.strip()` on a line. -/
def stripChars (cs : List Char) : List Char :=
  ((cs.dropWhile isPySpace).reverse.dropWhile isPySpace).reverse

/-- The `[：:\s]` class between a label and its number. -/
def isLabelSep (c : Char) : Bool :=
  c == '：' || c == ':' || isPySpace c

/-- The `[\d,]` class of number tokens. -/
def isDigitComma (c : Char) : Bool :=
  c.isDigit || c == ','

/-- Consume a literal character sequence. -/
def consumeLit : List Char → List Char → Option (List Char)
  | [], cs => some cs
  | _ :: _, [] => none
  | l :: ls, c :: cs => if c == l then consumeLit ls cs else none

/-- Match `label[：:\s]*([\d,]+)` anchored at the start of `cs` and return
the captured group (the classes are disjoint from `[\d,]`, so the greedy
`[：:\s]*` never needs backtracking). -/
def matchLabeledAt (label cs : List Char) : Option (List Char) :=
  match consumeLit label cs with
  | none => none
  | some r =>
    let g := (r.dropWhile isLabelSep).takeWhile isDigitComma
    if g.isEmpty then none else some g

/-- `re.search` for a labeled-number pattern
(`quantity_pattern` / `unit_price_pattern`). -/
def searchLabeled (label : List Char) : List Char → Option (List Char)
  | [] => none
  | c :: rest =>
    match matchLabeledAt label (c :: rest) with
    | some g => some g
    | none => searchLabeled label rest

/-- First match of `re.findall(r'[\d,]+[円]?', line)`: the leftmost maximal
run of digits/commas (the optional `円` extends the match but is stripped
again when the value is stored, so only the run matters). -/
def firstAmount : List Char → Option (List Char)
  | [] => none
  | c :: rest =>
    if isDigitComma c then some ((c :: rest).takeWhile isDigitComma)
    else firstAmount rest

/-- `re.match(r'^[\d\s,円]+$', line)` succeeds: a non-empty line made only
of digits, whitespace, commas and `円`. -/
def isNumericLine (cs : List Char) : Bool :=
  !cs.isEmpty && cs.all (fun c => c.isDigit || isPySpace c || c == ',' || c == '円')

/-- The accumulating `current_item` dict of `extract_items`: every field
optional, absent meaning the key was never set. -/
structure OrderItem where
  quantity : Option String
  unit_price : Option String
  amount : Option String
  product_name : Option String
deriving DecidableEq, Repr

/-- The initial empty `current_item = {}`. -/
def OrderItem.empty : OrderItem := ⟨none, none, none, none⟩

/-- Python dict truthiness of `current_item`. -/
def OrderItem.isSet (it : OrderItem) : Bool :=
  it.quantity.isSome || it.unit_price.isSome || it.amount.isSome
    || it.product_name.isSome

/-- `.replace(',', '')` (and the `円` stripped from an amount match) on a
captured `[\d,]+` group. -/
def stripCommas (g : List Char) : String :=
  String.mk (g.filter (fun c => c != ','))

/-- One iteration of the line loop of `extract_items` (data_extractor.py
lines 121-146): strip the line, skip it when empty, else overwrite
quantity/unit price on a label match, claim the first amount once, and
claim the first product-looking line once. -/
def processLine (cur : OrderItem) (rawLine : List Char) : OrderItem :=
  let line := stripChars rawLine
  if line.isEmpty then cur
  else
    let cur1 := match searchLabeled ['数', '量'] line with
      | some g => { cur with quantity := some (stripCommas g) }
      | none => cur
    let cur2 := match searchLabeled ['単', '価'] line with
      | some g => { cur1 with unit_price := some (stripCommas g) }
      | none => cur1
    let cur3 := match firstAmount line with
      | some run =>
        if cur2.amount.isNone then { cur2 with amount := some (stripCommas run) }
        else cur2
      | none => cur2
    if !(isNumericLine line) && decide (line.length > 2)
        && cur3.product_name.isNone then
      { cur3 with product_name := some (String.mk line) }
    else cur3

/-- `text.split('\n')`. -/
def splitLines : List Char → List (List Char)
  | [] => [[]]
  | c :: rest =>
    match splitLines rest with
    | [] => [[]]
    | l :: ls => if c == '\n' then [] :: l :: ls else (c :: l) :: ls

/-- `OrderDataExtractor.extract_items` (data_extractor.py lines 104-152):
scan the lines into one accumulating record and append it once at the end
when non-empty. -/
def extract_items (text : String) : List OrderItem :=
  let current_item := (splitLines text.data).foldl processLine OrderItem.empty
  if current_item.isSet then [current_item] else []

/-- C9: item extraction returns at most one record — the single
accumulating record of the line scan, appended once at the end — no matter
how many distinct item lines the document contains; e.g. a document with
two product lines and two quantity lines still yields one record. -/
theorem extract_items_at_most_one :
    (∀ text, (extract_items text).length ≤ 1)
    ∧ (extract_items
        "りんごジュース 150円\n数量: 10\nみかんゼリー 200円\n数量: 5").length
      = 1 := by
  refine ⟨?_, by decide⟩
  intro text
  unfold extract_items
  by_cases h : ((splitLines text.data).foldl processLine OrderItem.empty).isSet
      = true
  · rw [if_pos h]
    simp
  · rw [if_neg h]
    simp
